import Mathlib

/-!
Shallow embedding of the aggregation and cross-filter logic of
`src/combo_map_2.py` (the interactive LA-crime choropleth/table script).

A cleaned record keeps the three fields the aggregation reads:
the normalized `AREA NAME`, the resolved calendar year (`Year` column)
and the free-text `Crm Cd Desc` (possibly missing, modeled as `none`).
Pandas dataframes become lists; groupby/merge/fillna become explicit
list computations translated call-by-call from the script.
-/

/-- One cleaned incident record (a row of the dataframe after the
coordinate/date/Part-1 cleaning of lines 42-71 of `combo_map_2.py`):
normalized division name, resolved year, and crime description
(`none` models a missing / non-string `Crm Cd Desc`). -/
structure Record where
  area : String
  year : Int
  desc : Option String
deriving DecidableEq

/-- Embedding of `VIOLENT_KEYS` (combo_map_2.py lines 18-22). -/
def VIOLENT_KEYS : List String :=
  ["ASSAULT", "ROBBERY", "HOMICIDE", "MANSLAUGHTER",
   "RAPE", "SEXUAL", "PENETRATION", "ORAL COPULATION",
   "SODOMY", "BRANDISH WEAPON", "SHOTS FIRED"]

/-- ASCII uppercasing of one character; models Python `str.upper` on the
ASCII range (the keyword set is pure ASCII, so matches are unaffected). -/
def upChar (c : Char) : Char :=
  if 97 ≤ c.toNat && c.toNat ≤ 122 then Char.ofNat (c.toNat - 32) else c

/-- Boolean prefix test on character lists (helper for substring search). -/
def charsPre : List Char → List Char → Bool
  | [], _ => true
  | _ :: _, [] => false
  | a :: as, b :: bs => a == b && charsPre as bs

/-- Boolean substring containment on character lists; models the Python
expression `k in u` for strings. -/
def charsSub (pat : List Char) : List Char → Bool
  | [] => pat.isEmpty
  | b :: bs => charsPre pat (b :: bs) || charsSub pat bs

/-- Embedding of `is_violent` (combo_map_2.py lines 25-29): uppercase the
description and test each keyword for substring containment; a missing /
non-string description (modeled by `none`) yields 0. -/
def is_violent (desc : Option String) : Nat :=
  match desc with
  | none => 0
  | some d => if VIOLENT_KEYS.any (fun k => charsSub k.data (d.data.map upChar)) then 1 else 0

/-- Embedding of `parse_occ_datetime` (combo_map_2.py lines 32-39).
The three pandas `to_datetime` calls are external library parsers, so they
are parameters: `p1` models `format="%m/%d/%Y %I:%M:%S %p", errors="coerce"`,
`p2` models `format="%m/%d/%Y", errors="coerce"`, and `p3` models the
permissive generic parse `pd.to_datetime(−, errors="coerce")`; `none`
models `NaT`.  The structure — whole-series first pass, whole-series
second pass only when the first produced no successes at all, then an
element-wise fallback on the still-missing positions — is taken from the code. -/
def parse_occ_datetime (p1 p2 p3 : String → Option Int) (series : List String) : List (Option Int) :=
  let dt1 := series.map p1
  let dt2 := if dt1.all Option.isNone then series.map p2 else dt1
  List.zipWith (fun s o => match o with | some v => some v | none => p3 s) series dt2

/-- One row of the per-division summary frames (`df_area` / `year_map_data`
values, combo_map_2.py lines 74-78, 103-106, 127-131, 135-145): total and
violent counts, the violent ratio, and the clipped property count.
`vrat` embeds the `violent_ratio` column; Python float NaN from 0/0 that
the `fillna(0)` of the script turns into 0 is modeled by the zero-total case. -/
structure Summary where
  total : Nat
  violent : Nat
  vrat : Rat
  property : Nat
deriving DecidableEq

/-- The groupby-and-fill summary for one division name `d`.  The total
embeds the aggregation `total=("Crm Cd Desc", "count")`: the pandas
`"count"` aggregator counts only the non-null values of that column, so
the total is the number of group records whose description is present,
not the group size.  The violent count embeds `violent=("Violent",
"sum")`: it sums the `is_violent` flag over the whole group (records with
a missing description contribute flag 0).  The ratio resolves its
zero-total case to 0 (`fillna(0)` after the division) and
`property = total - violent` is clipped at 0 (Nat subtraction). -/
def summaryFor (recs : List Record) (d : String) : Summary :=
  let g := recs.filter (fun r => r.area == d)
  let t := (g.filterMap (fun r => r.desc)).length
  let v := (g.map (fun r => is_violent r.desc)).sum
  { total := t, violent := v,
    vrat := if t = 0 then 0 else (v : Rat) / (t : Rat),
    property := t - v }

/-- A year-dropdown bucket: one of the keys of the `year_map_data`
dictionary — a concrete year or the synthetic "ALL" entry. -/
inductive YearBucket
  | all
  | year (y : Int)
deriving DecidableEq

/-- Embedding of `YEARS = [2020, 2021, 2022, 2023, 2024]`
(combo_map_2.py lines 109 and 325). -/
def YEARS : List Int := [2020, 2021, 2022, 2023, 2024]

/-- Embedding of `year_options = ["ALL"] + YEARS` (combo_map_2.py line 347);
the `"ALL" in year_map_data` guard is always true since line 146 inserts it. -/
def year_options : List YearBucket := .all :: YEARS.map .year

/-- The record subset a bucket ranges over: the whole frame for "ALL",
the `Year == y` filter for a concrete year. -/
def bucketFilter (recs : List Record) : YearBucket → List Record
  | .all => recs
  | .year y => recs.filter (fun r => r.year == y)

/-- Embedding of the `year_map_data` construction (combo_map_2.py lines
125-146): for each bucket, the year-filtered (or whole) frame is grouped by
division, left-merged onto `div_order_df` — the canonical division list read
from the boundary geojson — and NaNs are zero-filled.  The left merge makes
the keys exactly the canonical list, in boundary order; divisions absent
from the data get the zero-filled summary and data-only division names are
not kept. -/
def year_map_data (divs : List String) (recs : List Record) (b : YearBucket) : List (String × Summary) :=
  divs.map (fun d => (d, summaryFor (bucketFilter recs b) d))

/-- Lookup of the row of one division in a keyed summary frame (first match,
as a pandas index lookup on the merged frame). -/
def lookupSummary (m : List (String × Summary)) (d : String) : Option Summary :=
  (m.find? (fun p => p.1 == d)).map (fun p => p.2)

/-- Code-point lexicographic strict order on character lists; models
Python string `<` used by `sorted` and by the sorted group keys of
`groupby`. -/
def charsLt : List Char → List Char → Bool
  | [], [] => false
  | [], _ :: _ => true
  | _ :: _, [] => false
  | a :: as, b :: bs =>
      if a.toNat < b.toNat then true
      else if b.toNat < a.toNat then false
      else charsLt as bs

/-- Ordered duplicate-free insertion of a string into an ascending list
(helper for modeling sorted unique key sets). -/
def insertKey (x : String) : List String → List String
  | [] => [x]
  | y :: t =>
      if charsLt x.data y.data then x :: y :: t
      else if x == y then y :: t
      else y :: insertKey x t

/-- Ascending duplicate-free sort of a list of strings; models both
`sorted(df[c].unique())` and the ascending key order `groupby` gives its
groups. -/
def sortedDedup (l : List String) : List String :=
  l.foldl (fun acc k => insertKey k acc) []

/-- The group keys of `df.groupby("Crm Cd Desc")`: the distinct non-missing
descriptions in ascending order (pandas sorts group keys and drops NaN
keys). -/
def sortedKeys (recs : List Record) : List String :=
  sortedDedup (recs.filterMap (fun r => r.desc))

/-- Embedding of `groupby("Crm Cd Desc").size().reset_index(name="count")`:
one (description, count) row per distinct description, rows in ascending
key order. -/
def groupbySize (recs : List Record) : List (String × Nat) :=
  (sortedKeys recs).map (fun k => (k, (recs.filter (fun r => r.desc == some k)).length))

/-- Stable ascending insertion by count: a new row moves left past rows
with a strictly greater count and stops at an equal or smaller one, as in
the insertion sort of numpy. -/
def insertAsc (x : String × Nat) : List (String × Nat) → List (String × Nat)
  | [] => [x]
  | y :: t => if x.2 < y.2 then x :: y :: t else y :: insertAsc x t

/-- Stable ascending sort by count (left-to-right insertion sort). -/
def argsortAsc (l : List (String × Nat)) : List (String × Nat) :=
  l.foldl (fun acc x => insertAsc x acc) []

/-- Embedding of `sort_values("count", ascending=False)` with the default
`kind`: pandas `nargsort` computes the ascending argsort of the column and
reverses the order for a descending sort.  The default argsort of numpy is
an unstable introsort that degenerates to a stable insertion sort only on
arrays below its small-array cutoff (about 16 elements), so this model —
reverse of a stable ascending sort — is exact for groupings below that
cutoff; for larger groupings the program guarantees the count order and
determinism but leaves the relative order of tied rows unspecified, and
the tie order this model produces there is an idealization (theorems about
tie order are stated only for the small regime). -/
def sort_values_desc (l : List (String × Nat)) : List (String × Nat) :=
  (argsortAsc l).reverse

/-- A ranking as the script builds it everywhere (combo_map_2.py lines
193-196, 241-246, 282-287, 330-333, 339-342): group the given records by
description, take group sizes, and sort by count descending. -/
def rankingOf (recs : List Record) : List (String × Nat) :=
  sort_values_desc (groupbySize recs)

/-- The per-row category label (combo_map_2.py line 197 and analogues). -/
def categoryOf (k : String) : String :=
  if is_violent (some k) = 1 then "Violent" else "Property"

/-- A ranking with its category column: the (crime description, count,
category label) rows that become the cell values of the table. -/
def rankedTable (recs : List Record) : List (String × Nat × String) :=
  (rankingOf recs).map (fun p => (p.1, p.2, categoryOf p.1))

/-- Embedding of `sorted(df["AREA NAME"].unique())` (combo_map_2.py line
240): the label set of the per-division buttons of the division dropdown. -/
def division_options (recs : List Record) : List String :=
  sortedDedup (recs.map (fun r => r.area))

/-- Embedding of `city_rank_year` extended to every bucket (combo_map_2.py
lines 329-344): for a concrete year the citywide ranking of the records of that year, for "ALL" the citywide ranking of the whole frame (`r_all`). -/
def city_rank_year (recs : List Record) (b : YearBucket) : List (String × Nat × String) :=
  rankedTable (bucketFilter recs b)

/-- The observable state of the two dropdowns and the two panels: the
active year entry, the active division entry (`none` = the "ALL DIVISIONS"
button), the summary frame feeding the choropleth, and the rows shown by
the table. -/
structure ViewState where
  selYear : YearBucket
  selDiv : Option String
  mapData : List (String × Summary)
  table : List (String × Nat × String)
deriving DecidableEq

/-- A dropdown event: choosing a year entry or a division entry. -/
inductive Event
  | set_year (b : YearBucket)
  | click_division (d : Option String)
deriving DecidableEq

/-- Embedding of the two updatemenus (combo_map_2.py lines 239-279, 298-321,
349-372).  A year button (`method="restyle"`, targeting map and table)
replaces the data of the map with `year_map_data[y]` and the cells of the table with
`city_rank_year[y]` — the citywide ranking, whatever division is selected.
A division button (`method="update"`, targeting only the table) replaces
the cells of the table with the ranking of the division computed from the unfiltered
frame `df` — all years, whatever year is selected — and the
"ALL DIVISIONS" button (`none`) with the citywide all-time ranking. -/
def step (divs : List String) (recs : List Record) (s : ViewState) : Event → ViewState
  | .set_year b =>
      { s with selYear := b,
               mapData := year_map_data divs recs b,
               table := city_rank_year recs b }
  | .click_division od =>
      { s with selDiv := od,
               table :=
                 match od with
                 | none => rankedTable recs
                 | some d => rankedTable (recs.filter (fun r => r.area == d)) }

/-- Embedding of `default_area = df_area.iloc[0]["AREA NAME"]`
(combo_map_2.py line 192): after the canonical left merge, row 0 of
`df_area` is the first boundary feature, so the initial table is built for
the first canonical division (an empty division list would make `iloc[0]`
raise; that is modeled by `none`). -/
def default_area (divs : List String) : Option String := divs.head?

/-- The state before any event (combo_map_2.py lines 148-150, 191-197,
375-406): year dropdown on "ALL" (`init_year`), division dropdown on its
entry 0 ("ALL DIVISIONS", `active=0`), map fed by `year_map_data["ALL"]`,
and the table showing the all-time ranking of `default_area`. -/
def init_state (divs : List String) (recs : List Record) : ViewState :=
  { selYear := .all, selDiv := none,
    mapData := year_map_data divs recs .all,
    table :=
      match default_area divs with
      | none => []
      | some d => rankedTable (recs.filter (fun r => r.area == d)) }

/-- Run a sequence of dropdown events from the initial state. -/
def run (divs : List String) (recs : List Record) (es : List Event) : ViewState :=
  es.foldl (step divs recs) (init_state divs recs)

/-! Helper lemmas about substring containment, used for the classifier. -/

/-- `charsPre` recognizes exactly the prefixes. -/
lemma charsPre_iff (pat l : List Char) : charsPre pat l = true ↔ ∃ post, l = pat ++ post := by
  induction pat generalizing l with
  | nil => simp [charsPre]
  | cons a as ih =>
    cases l with
    | nil => simp [charsPre]
    | cons b bs =>
      simp only [charsPre, Bool.and_eq_true, beq_iff_eq, ih, List.cons_append, List.cons.injEq]
      constructor
      · rintro ⟨hab, post, hp⟩
        exact ⟨post, hab.symm, hp⟩
      · rintro ⟨post, hba, hp⟩
        exact ⟨hba.symm, post, hp⟩

/-- `charsSub` recognizes exactly the substrings (contiguous infixes). -/
lemma charsSub_iff (pat l : List Char) : charsSub pat l = true ↔ ∃ pre post, l = pre ++ (pat ++ post) := by
  induction l with
  | nil =>
    simp only [charsSub, List.isEmpty_iff]
    constructor
    · intro h
      exact ⟨[], [], by simp [h]⟩
    · rintro ⟨pre, post, h⟩
      rcases List.append_eq_nil.mp h.symm with ⟨h1, h2⟩
      rcases List.append_eq_nil.mp h2 with ⟨h3, _⟩
      exact h3
  | cons b bs ih =>
    simp only [charsSub, Bool.or_eq_true, charsPre_iff, ih]
    constructor
    · rintro (⟨post, hp⟩ | ⟨pre, post, hp⟩)
      · exact ⟨[], post, by simp [hp]⟩
      · exact ⟨b :: pre, post, by simp [hp]⟩
    · rintro ⟨pre, post, hp⟩
      cases pre with
      | nil =>
        exact Or.inl ⟨post, by simpa using hp⟩
      | cons p ps =>
        rcases List.cons.injEq .. ▸ hp with ⟨_, h2⟩
        exact Or.inr ⟨ps, post, h2⟩

/-- The reading the claim gives of the classifier contract: the input is an actual
string and its uppercased character sequence contains some keyword of
`VIOLENT_KEYS` as a contiguous substring, at any position. -/
def ViolentSpec (desc : Option String) : Prop :=
  ∃ s, desc = some s ∧ ∃ k ∈ VIOLENT_KEYS, ∃ pre post, s.data.map upChar = pre ++ (k.data ++ post)

/-- C7: `is_violent` returns 1 (Violent) exactly when the input is a string
whose uppercased form contains one of the fixed keywords as a substring at
any position; a missing / non-string description yields 0 (Property); the
result is always defined and is one of 0, 1. -/
theorem c7_classifier (desc : Option String) :
    (is_violent desc = 1 ↔ ViolentSpec desc)
    ∧ is_violent none = 0
    ∧ (is_violent desc = 0 ∨ is_violent desc = 1) := by
  refine ⟨?_, rfl, ?_⟩
  · cases desc with
    | none =>
      simp [is_violent, ViolentSpec]
    | some d =>
      constructor
      · intro h1
        by_cases h : VIOLENT_KEYS.any (fun k => charsSub k.data (d.data.map upChar)) = true
        · rcases List.any_eq_true.mp h with ⟨k, hk, hsub⟩
          rcases (charsSub_iff k.data (d.data.map upChar)).mp hsub with ⟨pre, post, hp⟩
          exact ⟨d, rfl, k, hk, pre, post, hp⟩
        · simp [is_violent, h] at h1
      · rintro ⟨s, hs, k, hk, pre, post, hp⟩
        obtain rfl : d = s := by injection hs
        have h : VIOLENT_KEYS.any (fun k => charsSub k.data (d.data.map upChar)) = true :=
          List.any_eq_true.mpr ⟨k, hk, (charsSub_iff k.data (d.data.map upChar)).mpr ⟨pre, post, hp⟩⟩
        simp [is_violent, h]
  · cases desc with
    | none => exact Or.inl rfl
    | some d =>
      by_cases h : VIOLENT_KEYS.any (fun k => charsSub k.data (d.data.map upChar)) = true
      · exact Or.inr (by simp [is_violent, h])
      · exact Or.inl (by simp [is_violent, h])

/-- Witness for C7 at a concrete description: a description containing
"ROBBERY" mid-string with surrounding text classifies as Violent, and the
spec-side substring property holds for it. -/
theorem c7_classifier_witness :
    is_violent (some "Attempted robbery, weapon") = 1
    ∧ ViolentSpec (some "Attempted robbery, weapon") :=
  ⟨by decide, (c7_classifier (some "Attempted robbery, weapon")).1.mp (by decide)⟩

/-- Zipping a list with its own map collapses to one map. -/
lemma zipWith_map_right {α β γ : Type} (f : α → β → γ) (g : α → β) :
    ∀ l : List α, List.zipWith f l (l.map g) = l.map (fun x => f x (g x)) := by
  intro l
  induction l with
  | nil => rfl
  | cons x t ih => simp [List.zipWith, ih]

/-- C8: position-wise characterization of the temporal normalizer.  Every
value is first given to the exact-timestamp parser `p1`; only when that
pass succeeds nowhere on the whole series is the whole series re-parsed
with the date-only parser `p2`; a position still unparsed afterwards gets
the permissive parser `p3` individually; a position where every applied
pass fails stays `none` (NaT) and is the one `dropna` removes. -/
theorem c8_normalizer (p1 p2 p3 : String → Option Int) (series : List String) (i : Nat) :
    (parse_occ_datetime p1 p2 p3 series)[i]? =
      (series[i]?).map (fun s =>
        match (if (series.map p1).all Option.isNone then p2 s else p1 s) with
        | some v => some v
        | none => p3 s) := by
  unfold parse_occ_datetime
  by_cases h : (series.map p1).all Option.isNone
  · simp only [h, if_true, zipWith_map_right, List.getElem?_map]
  · simp only [h, if_false, Bool.false_eq_true, zipWith_map_right, List.getElem?_map]

/-- `find?` with an equality test finds the element itself. -/
lemma find?_beq_self (l : List String) (d : String) (hd : d ∈ l) :
    l.find? (fun x => x == d) = some d := by
  induction l with
  | nil => cases hd
  | cons a t ih =>
    by_cases h : (a == d) = true
    · have ha : a = d := beq_iff_eq.mp h
      simp [List.find?, h, ha]
    · rcases List.mem_cons.mp hd with rfl | hmem
      · simp at h
      · simp [List.find?, h, ih hmem]

/-- The row of a canonical division in a `year_map_data` frame is its
`summaryFor` over the records of the bucket. -/
lemma lookup_year_map (divs : List String) (recs : List Record) (b : YearBucket)
    (d : String) (hd : d ∈ divs) :
    lookupSummary (year_map_data divs recs b) d = some (summaryFor (bucketFilter recs b) d) := by
  unfold lookupSummary year_map_data
  rw [List.find?_map]
  have hc : ((fun p : String × Summary => p.1 == d) ∘ fun x => (x, summaryFor (bucketFilter recs b) x))
      = fun x => x == d := rfl
  rw [hc, find?_beq_self divs d hd]
  rfl

/-- The summary of a division with no records in scope is the zero row. -/
lemma summaryFor_empty (recs : List Record) (d : String)
    (h : recs.filter (fun r => r.area == d) = []) :
    summaryFor recs d = ⟨0, 0, 0, 0⟩ := by
  unfold summaryFor
  rw [h]
  rfl

/-- Unfolding lemma: the total of a division summary counts the group
records with a present description (the pandas count of the
`Crm Cd Desc` column). -/
lemma summaryFor_total (recs : List Record) (d : String) :
    (summaryFor recs d).total
      = ((recs.filter (fun r => r.area == d)).filterMap (fun r => r.desc)).length := rfl

/-- Unfolding lemma: the violent count is the sum of the flags of the group. -/
lemma summaryFor_violent (recs : List Record) (d : String) :
    (summaryFor recs d).violent
      = ((recs.filter (fun r => r.area == d)).map (fun r => is_violent r.desc)).sum := rfl

/-- Unfolding lemma: the ratio as a function of the other two fields. -/
lemma summaryFor_vrat (recs : List Record) (d : String) :
    (summaryFor recs d).vrat
      = if (summaryFor recs d).total = 0 then 0
        else ((summaryFor recs d).violent : Rat) / ((summaryFor recs d).total : Rat) := rfl

/-- C1: for every canonical division `d` and every year bucket of the
dropdown, the per-division frame `year_map_data[y]` carries exactly one row
keyed by `d`, and when no cleaned record lies in division `d` and bucket
`y` that row is the zero-valued summary (total 0, violent 0, ratio 0). -/
theorem c1_completeness (divs : List String) (recs : List Record) (b : YearBucket) (d : String)
    (hnd : divs.Nodup) (hd : d ∈ divs) (hb : b ∈ year_options) :
    ((year_map_data divs recs b).filter (fun p => p.1 == d)).length = 1
    ∧ ((bucketFilter recs b).filter (fun r => r.area == d) = [] →
        lookupSummary (year_map_data divs recs b) d = some ⟨0, 0, 0, 0⟩) := by
  constructor
  · unfold year_map_data
    rw [List.filter_map]
    have hc : ((fun p : String × Summary => p.1 == d) ∘ fun x => (x, summaryFor (bucketFilter recs b) x))
        = fun x => x == d := rfl
    rw [hc, List.length_map]
    have h1 : (divs.filter fun x => x == d).length = divs.count d := by
      rw [List.count, List.countP_eq_length_filter]
    rw [h1]
    exact List.count_eq_one_of_mem hnd hd
  · intro hempty
    rw [lookup_year_map divs recs b d hd, summaryFor_empty _ _ hempty]

/-- Witness for C1: two canonical divisions, one record; the division
"TOPANGA" has no 2021 record, so its 2021 row is the zero summary. -/
theorem c1_completeness_witness :
    (["CENTRAL", "TOPANGA"].Nodup ∧ "TOPANGA" ∈ ["CENTRAL", "TOPANGA"]
      ∧ YearBucket.year 2021 ∈ year_options)
    ∧ (((year_map_data ["CENTRAL", "TOPANGA"] [⟨"CENTRAL", 2023, some "ROBBERY"⟩] (.year 2021)).filter
          (fun p => p.1 == "TOPANGA")).length = 1
        ∧ ((bucketFilter [⟨"CENTRAL", 2023, some "ROBBERY"⟩] (.year 2021)).filter
            (fun r => r.area == "TOPANGA") = [] →
          lookupSummary (year_map_data ["CENTRAL", "TOPANGA"] [⟨"CENTRAL", 2023, some "ROBBERY"⟩] (.year 2021))
            "TOPANGA" = some ⟨0, 0, 0, 0⟩)) :=
  ⟨⟨by decide, by decide, by decide⟩,
    c1_completeness ["CENTRAL", "TOPANGA"] [⟨"CENTRAL", 2023, some "ROBBERY"⟩] (.year 2021) "TOPANGA"
      (by decide) (by decide) (by decide)⟩

/-- The violent flag of a record is 0 or 1, hence at most 1. -/
lemma is_violent_le_one (d : Option String) : is_violent d ≤ 1 := by
  cases d with
  | none => exact Nat.zero_le 1
  | some s =>
    unfold is_violent
    by_cases h : VIOLENT_KEYS.any (fun k => charsSub k.data (s.data.map upChar)) = true
    · simp [h]
    · simp [h]

/-- The violent count of a group never exceeds its description count: a
record with a missing description is excluded from the total, but its
flag is 0 (`is_violent` of a non-string is 0), and a record with a
present description contributes a flag of at most 1 against its own unit
of total. -/
lemma sum_violent_le_count (g : List Record) :
    (g.map (fun r => is_violent r.desc)).sum ≤ (g.filterMap (fun r => r.desc)).length := by
  induction g with
  | nil => simp
  | cons r t ih =>
    cases hdesc : r.desc with
    | none =>
      have h0 : is_violent none = 0 := rfl
      simp only [List.map_cons, List.sum_cons, List.filterMap_cons, hdesc, h0]
      omega
    | some s =>
      have hle : is_violent (some s) ≤ 1 := is_violent_le_one (some s)
      simp only [List.map_cons, List.sum_cons, List.filterMap_cons, hdesc, List.length_cons]
      omega

/-- C2: every row of every per-division frame satisfies
`violent ≤ total` (counts are naturals, so `0 ≤ violent` is inherent),
the ratio is exactly 0 when the total is 0 (the NaN-fill path), and is
exactly `violent / total` when the total is positive.  The total counts
only present descriptions (pandas count), so `violent ≤ total` genuinely
depends on `is_violent` vanishing on missing descriptions: a record
excluded from the total also contributes 0 to the flag sum. -/
theorem c2_summary_laws (divs : List String) (recs : List Record) (b : YearBucket)
    (d : String) (s : Summary) (h : (d, s) ∈ year_map_data divs recs b) :
    s.violent ≤ s.total
    ∧ (s.total = 0 → s.vrat = 0)
    ∧ (0 < s.total → s.vrat = (s.violent : Rat) / (s.total : Rat)) := by
  rcases List.mem_map.mp h with ⟨x, hmem, hx⟩
  cases hx
  refine ⟨?_, ?_, ?_⟩
  · rw [summaryFor_total, summaryFor_violent]
    exact sum_violent_le_count _
  · intro ht
    rw [summaryFor_vrat, if_pos ht]
  · intro ht
    rw [summaryFor_vrat, if_neg (Nat.pos_iff_ne_zero.mp ht)]

/-- Witness for C2 at a concrete frame: the "CENTRAL" row of a one-record
frame satisfies the count and ratio laws. -/
theorem c2_summary_laws_witness :
    (("CENTRAL", summaryFor (bucketFilter [⟨"CENTRAL", 2023, some "ROBBERY"⟩] .all) "CENTRAL")
        ∈ year_map_data ["CENTRAL"] [⟨"CENTRAL", 2023, some "ROBBERY"⟩] .all)
    ∧ ((summaryFor (bucketFilter [⟨"CENTRAL", 2023, some "ROBBERY"⟩] .all) "CENTRAL").violent
        ≤ (summaryFor (bucketFilter [⟨"CENTRAL", 2023, some "ROBBERY"⟩] .all) "CENTRAL").total
      ∧ ((summaryFor (bucketFilter [⟨"CENTRAL", 2023, some "ROBBERY"⟩] .all) "CENTRAL").total = 0 →
          (summaryFor (bucketFilter [⟨"CENTRAL", 2023, some "ROBBERY"⟩] .all) "CENTRAL").vrat = 0)
      ∧ (0 < (summaryFor (bucketFilter [⟨"CENTRAL", 2023, some "ROBBERY"⟩] .all) "CENTRAL").total →
          (summaryFor (bucketFilter [⟨"CENTRAL", 2023, some "ROBBERY"⟩] .all) "CENTRAL").vrat
            = ((summaryFor (bucketFilter [⟨"CENTRAL", 2023, some "ROBBERY"⟩] .all) "CENTRAL").violent : Rat)
              / ((summaryFor (bucketFilter [⟨"CENTRAL", 2023, some "ROBBERY"⟩] .all) "CENTRAL").total : Rat))) := by
  have hmem : ("CENTRAL", summaryFor (bucketFilter [⟨"CENTRAL", 2023, some "ROBBERY"⟩] .all) "CENTRAL")
      ∈ year_map_data ["CENTRAL"] [⟨"CENTRAL", 2023, some "ROBBERY"⟩] .all := by
    unfold year_map_data
    exact List.mem_singleton.mpr rfl
  exact ⟨hmem, c2_summary_laws ["CENTRAL"] [⟨"CENTRAL", 2023, some "ROBBERY"⟩] .all "CENTRAL" _ hmem⟩

/-- Summing a year-indicator over a duplicate-free year list counts
whether the year is in the list. -/
lemma indicator_sum (ys : List Int) (hnd : ys.Nodup) (a : Int) :
    (ys.map (fun y => if a = y then (1 : Nat) else 0)).sum
      = if a ∈ ys then 1 else 0 := by
  induction ys with
  | nil => simp
  | cons y t ih =>
    have hyt : y ∉ t := (List.nodup_cons.mp hnd).1
    have hnd2 : t.Nodup := (List.nodup_cons.mp hnd).2
    by_cases h : a = y
    · subst h
      have hat : a ∉ t := hyt
      simp [ih hnd2, hat]
    · simp [h, ih hnd2, List.mem_cons]

/-- Partition of the count of a predicate over a duplicate-free year
list: the per-year counts plus the outside-the-list count give the whole
count. -/
lemma countP_split (recs : List Record) (p : Record → Bool) (ys : List Int) (hnd : ys.Nodup) :
    (ys.map (fun y => recs.countP (fun r => p r && r.year == y))).sum
      + recs.countP (fun r => p r && !(ys.contains r.year))
    = recs.countP (fun r => p r) := by
  induction recs with
  | nil => simp
  | cons r t ih =>
    simp only [List.countP_cons, List.sum_map_add]
    have hstep :
        (ys.map fun y => if (p r && r.year == y) = true then (1 : Nat) else 0).sum
          + (if (p r && !(ys.contains r.year)) = true then (1 : Nat) else 0)
        = if (p r) = true then (1 : Nat) else 0 := by
      by_cases hp : p r = true
      · by_cases hy : r.year ∈ ys
        · simp [hp, hy, indicator_sum ys hnd r.year]
        · simp [hp, hy, indicator_sum ys hnd r.year]
      · have hb : p r = false := by
          cases hpp : p r with
          | false => rfl
          | true => exact absurd hpp hp
        simp [hb]
    omega

/-- The length of the present descriptions of a list equals its count of
records with a present description. -/
lemma filterMap_desc_length (l : List Record) :
    (l.filterMap (fun r => r.desc)).length = l.countP (fun r => r.desc.isSome) := by
  induction l with
  | nil => rfl
  | cons r t ih =>
    cases hdesc : r.desc with
    | none => simp [List.filterMap_cons, List.countP_cons, hdesc, ih]
    | some s => simp [List.filterMap_cons, List.countP_cons, hdesc, ih]

/-- The total of a division in the `year_map_data` frame of one bucket (0 if the
division has no row; canonical divisions always have one). -/
def totalAt (divs : List String) (recs : List Record) (b : YearBucket) (d : String) : Nat :=
  ((lookupSummary (year_map_data divs recs b) d).map Summary.total).getD 0

/-- The ALL-bucket total of a canonical division counts its records with a
present description (pandas count of the description column). -/
lemma totalAt_all (divs : List String) (recs : List Record) (d : String) (hd : d ∈ divs) :
    totalAt divs recs .all d = recs.countP (fun r => r.area == d && r.desc.isSome) := by
  unfold totalAt
  rw [lookup_year_map divs recs .all d hd]
  show (summaryFor (bucketFilter recs .all) d).total = _
  rw [summaryFor_total]
  show ((recs.filter (fun r => r.area == d)).filterMap (fun r => r.desc)).length = _
  rw [filterMap_desc_length, List.countP_filter]
  have hfun : (fun r : Record => r.desc.isSome && (r.area == d))
      = (fun r : Record => (r.area == d) && r.desc.isSome) := by
    funext r
    exact Bool.and_comm _ _
  rw [hfun]

/-- The per-year total of a canonical division counts its records of that
year with a present description. -/
lemma totalAt_year (divs : List String) (recs : List Record) (y : Int) (d : String)
    (hd : d ∈ divs) :
    totalAt divs recs (.year y) d
      = recs.countP (fun r => (r.area == d && r.desc.isSome) && r.year == y) := by
  unfold totalAt
  rw [lookup_year_map divs recs (.year y) d hd]
  show (summaryFor (bucketFilter recs (.year y)) d).total = _
  rw [summaryFor_total]
  show (((recs.filter (fun r => r.year == y)).filter
      (fun r => r.area == d)).filterMap (fun r => r.desc)).length = _
  rw [filterMap_desc_length, List.countP_filter, List.countP_filter]
  have hfun : (fun r : Record => r.desc.isSome && (r.area == d) && (r.year == y))
      = (fun r : Record => ((r.area == d) && r.desc.isSome) && (r.year == y)) := by
    funext r
    rw [Bool.and_comm (r.desc.isSome) (r.area == d)]
  rw [hfun]

/-- The inserted string is a member of the insertion result. -/
lemma mem_insertKey_self (l : List String) (x : String) : x ∈ insertKey x l := by
  induction l with
  | nil => exact List.mem_singleton.mpr rfl
  | cons y t ih =>
    unfold insertKey
    by_cases h1 : charsLt x.data y.data = true
    · simp [h1]
    · by_cases h2 : (x == y) = true
      · have hxy : x = y := beq_iff_eq.mp h2
        subst hxy
        simp [h1]
      · simp [h1, h2, ih]

/-- Insertion preserves the members already present. -/
lemma mem_insertKey_of_mem (l : List String) (x z : String) (hz : z ∈ l) :
    z ∈ insertKey x l := by
  induction l with
  | nil => cases hz
  | cons y t ih =>
    unfold insertKey
    by_cases h1 : charsLt x.data y.data = true
    · simp [h1, List.mem_cons]
      rcases List.mem_cons.mp hz with rfl | hmem
      · exact Or.inr (Or.inl rfl)
      · exact Or.inr (Or.inr hmem)
    · by_cases h2 : (x == y) = true
      · simp [h1, h2, hz]
      · rcases List.mem_cons.mp hz with rfl | hmem
        · simp [h1, h2]
        · simp [h1, h2, ih hmem]

/-- Members of the accumulator or of the remaining input are members of
the sorted-dedup fold. -/
lemma mem_sortedDedup_fold (l : List String) :
    ∀ (acc : List String) (a : String), (a ∈ acc ∨ a ∈ l) →
      a ∈ l.foldl (fun acc k => insertKey k acc) acc := by
  induction l with
  | nil =>
    intro acc a ha
    rcases ha with h | h
    · exact h
    · cases h
  | cons x t ih =>
    intro acc a ha
    show a ∈ t.foldl (fun acc k => insertKey k acc) (insertKey x acc)
    rcases ha with h | h
    · exact ih (insertKey x acc) a (Or.inl (mem_insertKey_of_mem acc x a h))
    · rcases List.mem_cons.mp h with rfl | hmem
      · exact ih (insertKey a acc) a (Or.inl (mem_insertKey_self acc a))
      · exact ih (insertKey x acc) a (Or.inr hmem)

/-- The division name of every record has an entry among the division dropdown
labels. -/
lemma mem_division_options (recs : List Record) (r : Record) (hr : r ∈ recs) :
    r.area ∈ division_options recs := by
  unfold division_options sortedDedup
  exact mem_sortedDedup_fold _ [] r.area (Or.inr (List.mem_map.mpr ⟨r, hr, rfl⟩))

/-- The (present) description of every record is one of the ranking group keys. -/
lemma mem_sortedKeys (recs : List Record) (r : Record) (k : String)
    (hr : r ∈ recs) (hk : r.desc = some k) : k ∈ sortedKeys recs := by
  unfold sortedKeys sortedDedup
  exact mem_sortedDedup_fold _ [] k (Or.inr (List.mem_filterMap.mpr ⟨r, hr, hk⟩))

/-- Count-insertion keeps the inserted row. -/
lemma mem_insertAsc_self (l : List (String × Nat)) (x : String × Nat) : x ∈ insertAsc x l := by
  induction l with
  | nil => exact List.mem_singleton.mpr rfl
  | cons y t ih =>
    unfold insertAsc
    by_cases h : x.2 < y.2
    · simp [h]
    · simp [h, ih]

/-- Count-insertion keeps the rows already present. -/
lemma mem_insertAsc_of_mem (l : List (String × Nat)) (x z : String × Nat) (hz : z ∈ l) :
    z ∈ insertAsc x l := by
  induction l with
  | nil => cases hz
  | cons y t ih =>
    unfold insertAsc
    by_cases h : x.2 < y.2
    · simp [h, List.mem_cons]
      rcases List.mem_cons.mp hz with rfl | hmem
      · exact Or.inr (Or.inl rfl)
      · exact Or.inr (Or.inr hmem)
    · rcases List.mem_cons.mp hz with rfl | hmem
      · simp [h]
      · simp [h, ih hmem]

/-- Members of the accumulator or of the remaining input survive the
ascending-sort fold. -/
lemma mem_argsortAsc_fold (l : List (String × Nat)) :
    ∀ (acc : List (String × Nat)) (a : String × Nat), (a ∈ acc ∨ a ∈ l) →
      a ∈ l.foldl (fun acc x => insertAsc x acc) acc := by
  induction l with
  | nil =>
    intro acc a ha
    rcases ha with h | h
    · exact h
    · cases h
  | cons x t ih =>
    intro acc a ha
    show a ∈ t.foldl (fun acc x => insertAsc x acc) (insertAsc x acc)
    rcases ha with h | h
    · exact ih (insertAsc x acc) a (Or.inl (mem_insertAsc_of_mem acc x a h))
    · rcases List.mem_cons.mp h with rfl | hmem
      · exact ih (insertAsc a acc) a (Or.inl (mem_insertAsc_self acc a))
      · exact ih (insertAsc x acc) a (Or.inr hmem)

/-- Every grouping row survives into the sorted ranking. -/
lemma mem_rankingOf (recs : List Record) (p : String × Nat) (hp : p ∈ groupbySize recs) :
    p ∈ rankingOf recs := by
  unfold rankingOf sort_values_desc
  exact List.mem_reverse.mpr (mem_argsortAsc_fold (groupbySize recs) [] p (Or.inr hp))


/-- C10 counterexample: a cleaned record with a missing description and an
out-of-range year (2019).  The claim says every out-of-range record is
counted in the ALL bucket (per-division summaries and all-time rankings);
but the pandas count and groupby both exclude null descriptions, so this
record is counted nowhere: the ALL total is 0, it does not exceed the
per-year sum, and the all-time ranking of the division is empty. -/
theorem c10_counterexample :
    (⟨"CENTRAL", 2019, none⟩ : Record) ∈ ([⟨"CENTRAL", 2019, none⟩] : List Record)
    ∧ ((2019 : Int) ∉ YEARS)
    ∧ totalAt ["CENTRAL"] [⟨"CENTRAL", 2019, none⟩] .all "CENTRAL" = 0
    ∧ ¬ ((YEARS.map (fun y =>
            totalAt ["CENTRAL"] [⟨"CENTRAL", 2019, none⟩] (.year y) "CENTRAL")).sum
          < totalAt ["CENTRAL"] [⟨"CENTRAL", 2019, none⟩] .all "CENTRAL")
    ∧ rankingOf (([⟨"CENTRAL", 2019, none⟩] : List Record).filter
        (fun x => x.area == "CENTRAL")) = [] := by
  refine ⟨by decide, by decide, by decide, by decide, by decide⟩

/-- C10 amended: restricted to records with a present description the
claim holds.  Such a record with an out-of-range year is counted in the
ALL-bucket summary total of its division and appears with positive count
in the all-time ranking of its division, but belongs to no per-year
bucket; the ALL total equals the per-year sums plus the out-of-range
present-description count, and strictly exceeds the per-year sum whenever
such a record exists.  A record with a missing description is counted in
neither side (see the counterexample). -/
theorem c10_outside_years (divs : List String) (recs : List Record) (d : String)
    (hd : d ∈ divs) :
    totalAt divs recs .all d
      = (YEARS.map (fun y => totalAt divs recs (.year y) d)).sum
        + recs.countP (fun r => (r.area == d && r.desc.isSome) && !(YEARS.contains r.year))
    ∧ ((∃ r ∈ recs, r.area = d ∧ r.desc.isSome ∧ r.year ∉ YEARS) →
        (YEARS.map (fun y => totalAt divs recs (.year y) d)).sum
          < totalAt divs recs .all d)
    ∧ (∀ r ∈ recs, r.area = d → r.year ∉ YEARS → ∀ k, r.desc = some k →
        ∃ n, 0 < n ∧ (k, n) ∈ rankingOf (recs.filter (fun x => x.area == d)))
    ∧ (∀ r ∈ recs, r.year ∉ YEARS → ∀ y ∈ YEARS, r ∉ bucketFilter recs (.year y)) := by
  have hmap : YEARS.map (fun y => totalAt divs recs (.year y) d)
      = YEARS.map (fun y =>
          recs.countP (fun r => (r.area == d && r.desc.isSome) && r.year == y)) :=
    List.map_congr_left (fun y _ => totalAt_year divs recs y d hd)
  have hnd : YEARS.Nodup := by decide
  have hsplit :
      (YEARS.map (fun y =>
          recs.countP (fun r => (r.area == d && r.desc.isSome) && r.year == y))).sum
        + recs.countP (fun r => (r.area == d && r.desc.isSome) && !(YEARS.contains r.year))
      = recs.countP (fun r => r.area == d && r.desc.isSome) :=
    countP_split recs (fun r => r.area == d && r.desc.isSome) YEARS hnd
  refine ⟨?_, ?_, ?_, ?_⟩
  · rw [totalAt_all divs recs d hd, hmap]
    omega
  · rintro ⟨r, hr, hra, hsome, hry⟩
    have hpos : 0 < recs.countP
        (fun r => (r.area == d && r.desc.isSome) && !(YEARS.contains r.year)) := by
      rw [List.countP_eq_length_filter]
      refine List.length_pos_of_mem (List.mem_filter.mpr ⟨hr, ?_⟩)
      have h1 : (r.area == d) = true := beq_iff_eq.mpr hra
      have h2 : (YEARS.contains r.year) = false := by
        cases hc : YEARS.contains r.year with
        | false => rfl
        | true => exact absurd (List.elem_iff.mp hc) hry
      rw [h1, hsome, h2]
      rfl
    rw [totalAt_all divs recs d hd, hmap]
    omega
  · intro r hr hra hry k hk
    have hrD : r ∈ recs.filter (fun x => x.area == d) :=
      List.mem_filter.mpr ⟨hr, beq_iff_eq.mpr hra⟩
    have hkk : k ∈ sortedKeys (recs.filter (fun x => x.area == d)) :=
      mem_sortedKeys _ r k hrD hk
    refine ⟨((recs.filter (fun x => x.area == d)).filter
        (fun x => x.desc == some k)).length, ?_, ?_⟩
    · exact List.length_pos_of_mem (List.mem_filter.mpr ⟨hrD, by simp [hk]⟩)
    · exact mem_rankingOf _ _ (List.mem_map.mpr ⟨k, hkk, rfl⟩)
  · intro r hr hry y hy hcon
    have hmem := List.mem_filter.mp hcon
    have hyy : r.year = y := beq_iff_eq.mp hmem.2
    exact hry (hyy ▸ hy)

/-- Witness for the amended C10: a frame with a 2019 ROBBERY record (its
description present); the ALL total (2) strictly exceeds the sum of the
2020-2024 totals (1), and the 2019 record lies in no per-year bucket. -/
theorem c10_outside_years_witness :
    "CENTRAL" ∈ ["CENTRAL"]
    ∧ (YEARS.map (fun y =>
          totalAt ["CENTRAL"] [⟨"CENTRAL", 2019, some "ROBBERY"⟩, ⟨"CENTRAL", 2023, some "ARSON"⟩]
            (.year y) "CENTRAL")).sum
        < totalAt ["CENTRAL"] [⟨"CENTRAL", 2019, some "ROBBERY"⟩, ⟨"CENTRAL", 2023, some "ARSON"⟩]
            .all "CENTRAL"
    ∧ (⟨"CENTRAL", 2019, some "ROBBERY"⟩ : Record) ∉ bucketFilter
        [⟨"CENTRAL", 2019, some "ROBBERY"⟩, ⟨"CENTRAL", 2023, some "ARSON"⟩] (.year 2020) :=
  ⟨by decide,
    (c10_outside_years ["CENTRAL"]
        [⟨"CENTRAL", 2019, some "ROBBERY"⟩, ⟨"CENTRAL", 2023, some "ARSON"⟩]
        "CENTRAL" (by decide)).2.1
      ⟨⟨"CENTRAL", 2019, some "ROBBERY"⟩, by decide, rfl, by decide, by decide⟩,
    (c10_outside_years ["CENTRAL"]
        [⟨"CENTRAL", 2019, some "ROBBERY"⟩, ⟨"CENTRAL", 2023, some "ARSON"⟩]
        "CENTRAL" (by decide)).2.2.2
      ⟨"CENTRAL", 2019, some "ROBBERY"⟩ (by decide) (by decide) 2020 (by decide)⟩

/-- C3 counterexample: reach the state (selected_year = 2023,
selected_division = CENTRAL) by setting the year and then clicking the
division.  The claim says the table now shows the CENTRAL ranking restricted
to 2023 (only the one 2023 record); the division button of the code filled the
table from the unfiltered frame, so the 2022 record is in the table too. -/
theorem c3_counterexample :
    (run ["CENTRAL"] [⟨"CENTRAL", 2022, some "ARSON"⟩, ⟨"CENTRAL", 2023, some "BURGLARY"⟩]
        [.set_year (.year 2023), .click_division (some "CENTRAL")]).selYear = .year 2023
    ∧ (run ["CENTRAL"] [⟨"CENTRAL", 2022, some "ARSON"⟩, ⟨"CENTRAL", 2023, some "BURGLARY"⟩]
        [.set_year (.year 2023), .click_division (some "CENTRAL")]).selDiv = some "CENTRAL"
    ∧ (run ["CENTRAL"] [⟨"CENTRAL", 2022, some "ARSON"⟩, ⟨"CENTRAL", 2023, some "BURGLARY"⟩]
        [.set_year (.year 2023), .click_division (some "CENTRAL")]).table
      ≠ rankedTable (([⟨"CENTRAL", 2022, some "ARSON"⟩, ⟨"CENTRAL", 2023, some "BURGLARY"⟩].filter
          (fun r => r.area == "CENTRAL" && r.year == 2023))) := by
  refine ⟨rfl, rfl, ?_⟩
  decide

/-- C3 amended: the derived table source depends only on the most recent
event, not on the pair (selected_division, selected_year): clicking a
division always installs the all-time ranking of that division (the whole-frame
ranking for the ALL DIVISIONS entry), ignoring the selected year, and
choosing a year always installs the citywide ranking for that year,
ignoring the selected division. -/
theorem c3_amended (divs : List String) (recs : List Record) (s : ViewState) (b : YearBucket)
    (d : String) (hb : b ∈ year_options) :
    (step divs recs s (.click_division (some d))).table
        = rankedTable (recs.filter (fun r => r.area == d))
    ∧ (step divs recs s (.click_division (some d))).selYear = s.selYear
    ∧ (step divs recs s (.set_year b)).table = city_rank_year recs b
    ∧ (step divs recs s (.set_year b)).selDiv = s.selDiv
    ∧ (step divs recs s (.click_division none)).table = rankedTable recs :=
  ⟨rfl, rfl, rfl, rfl, rfl⟩

/-- Witness for the amended C3 at a concrete state. -/
theorem c3_amended_witness :
    YearBucket.year 2023 ∈ year_options
    ∧ ((step ["CENTRAL"] [⟨"CENTRAL", 2022, some "ARSON"⟩]
          (init_state ["CENTRAL"] [⟨"CENTRAL", 2022, some "ARSON"⟩])
          (.click_division (some "CENTRAL"))).table
        = rankedTable ([⟨"CENTRAL", 2022, some "ARSON"⟩].filter (fun r => r.area == "CENTRAL"))
      ∧ (step ["CENTRAL"] [⟨"CENTRAL", 2022, some "ARSON"⟩]
          (init_state ["CENTRAL"] [⟨"CENTRAL", 2022, some "ARSON"⟩])
          (.click_division (some "CENTRAL"))).selYear
        = (init_state ["CENTRAL"] [⟨"CENTRAL", 2022, some "ARSON"⟩]).selYear
      ∧ (step ["CENTRAL"] [⟨"CENTRAL", 2022, some "ARSON"⟩]
          (init_state ["CENTRAL"] [⟨"CENTRAL", 2022, some "ARSON"⟩])
          (.set_year (.year 2023))).table
        = city_rank_year [⟨"CENTRAL", 2022, some "ARSON"⟩] (.year 2023)
      ∧ (step ["CENTRAL"] [⟨"CENTRAL", 2022, some "ARSON"⟩]
          (init_state ["CENTRAL"] [⟨"CENTRAL", 2022, some "ARSON"⟩])
          (.set_year (.year 2023))).selDiv
        = (init_state ["CENTRAL"] [⟨"CENTRAL", 2022, some "ARSON"⟩]).selDiv
      ∧ (step ["CENTRAL"] [⟨"CENTRAL", 2022, some "ARSON"⟩]
          (init_state ["CENTRAL"] [⟨"CENTRAL", 2022, some "ARSON"⟩])
          (.click_division none)).table
        = rankedTable [⟨"CENTRAL", 2022, some "ARSON"⟩]) :=
  ⟨by decide,
    c3_amended ["CENTRAL"] [⟨"CENTRAL", 2022, some "ARSON"⟩]
      (init_state ["CENTRAL"] [⟨"CENTRAL", 2022, some "ARSON"⟩]) (.year 2023) "CENTRAL" (by decide)⟩

/-- C4 counterexample: from the (reachable) initial state, click CENTRAL
then set year ALL: the table ends as the citywide all-time ranking (two
rows); in the reverse order it ends as the CENTRAL all-time ranking (one
row).  Both referenced rankings are non-empty, yet the results differ. -/
theorem c4_counterexample :
    (run ["CENTRAL", "TOPANGA"] [⟨"CENTRAL", 2023, some "ROBBERY"⟩, ⟨"TOPANGA", 2023, some "ARSON"⟩]
        [.click_division (some "CENTRAL"), .set_year .all]).table
      = [("ROBBERY", 1, "Violent"), ("ARSON", 1, "Property")]
    ∧ (run ["CENTRAL", "TOPANGA"] [⟨"CENTRAL", 2023, some "ROBBERY"⟩, ⟨"TOPANGA", 2023, some "ARSON"⟩]
        [.set_year .all, .click_division (some "CENTRAL")]).table
      = [("ROBBERY", 1, "Violent")]
    ∧ (run ["CENTRAL", "TOPANGA"] [⟨"CENTRAL", 2023, some "ROBBERY"⟩, ⟨"TOPANGA", 2023, some "ARSON"⟩]
        [.click_division (some "CENTRAL"), .set_year .all]).table
      ≠ (run ["CENTRAL", "TOPANGA"] [⟨"CENTRAL", 2023, some "ROBBERY"⟩, ⟨"TOPANGA", 2023, some "ARSON"⟩]
        [.set_year .all, .click_division (some "CENTRAL")]).table := by
  refine ⟨?_, ?_, ?_⟩ <;> decide

/-- C4 amended: the two orders do not commute in general — the table
reflects only the last event.  click_division(d) then set_year(ALL) always
ends with the citywide all-time ranking, while set_year(ALL) then
click_division(d) always ends with the all-time ranking of division d; the two
agree exactly when those two rankings coincide. -/
theorem c4_amended (divs : List String) (recs : List Record) (s : ViewState) (d : String) :
    (step divs recs (step divs recs s (.click_division (some d))) (.set_year .all)).table
        = rankedTable recs
    ∧ (step divs recs (step divs recs s (.set_year .all)) (.click_division (some d))).table
        = rankedTable (recs.filter (fun r => r.area == d)) :=
  ⟨rfl, rfl⟩

/-- C6 counterexample: in the initial state the table equals the
all-time ranking of the first canonical division and differs from the citywide
ranking, contradicting "the table shows the citywide ranking". -/
theorem c6_counterexample :
    (init_state ["CENTRAL", "TOPANGA"]
        [⟨"CENTRAL", 2023, some "ROBBERY"⟩, ⟨"TOPANGA", 2023, some "ARSON"⟩]).table
      = rankedTable ([⟨"CENTRAL", 2023, some "ROBBERY"⟩, ⟨"TOPANGA", 2023, some "ARSON"⟩].filter
          (fun r => r.area == "CENTRAL"))
    ∧ (init_state ["CENTRAL", "TOPANGA"]
        [⟨"CENTRAL", 2023, some "ROBBERY"⟩, ⟨"TOPANGA", 2023, some "ARSON"⟩]).table
      ≠ city_rank_year [⟨"CENTRAL", 2023, some "ROBBERY"⟩, ⟨"TOPANGA", 2023, some "ARSON"⟩] .all := by
  refine ⟨?_, ?_⟩ <;> decide

/-- C6 amended: the initial selection state is (ALL, NONE) and the map does
show the all-time per-division summaries, but the initial table shows the
all-time ranking of the first division of the boundary list
(`df_area.iloc[0]`), not the citywide ranking — even though the active entry of the division
dropdown reads "ALL DIVISIONS". -/
theorem c6_amended (divs : List String) (recs : List Record) (d : String)
    (hd : default_area divs = some d) :
    (init_state divs recs).selYear = .all
    ∧ (init_state divs recs).selDiv = none
    ∧ (init_state divs recs).mapData = year_map_data divs recs .all
    ∧ (init_state divs recs).table = rankedTable (recs.filter (fun r => r.area == d)) := by
  refine ⟨rfl, rfl, rfl, ?_⟩
  simp [init_state, hd]

/-- Witness for the amended C6 at a concrete boundary list and frame. -/
theorem c6_amended_witness :
    default_area ["CENTRAL", "TOPANGA"] = some "CENTRAL"
    ∧ ((init_state ["CENTRAL", "TOPANGA"] [⟨"TOPANGA", 2023, some "ARSON"⟩]).selYear = .all
      ∧ (init_state ["CENTRAL", "TOPANGA"] [⟨"TOPANGA", 2023, some "ARSON"⟩]).selDiv = none
      ∧ (init_state ["CENTRAL", "TOPANGA"] [⟨"TOPANGA", 2023, some "ARSON"⟩]).mapData
          = year_map_data ["CENTRAL", "TOPANGA"] [⟨"TOPANGA", 2023, some "ARSON"⟩] .all
      ∧ (init_state ["CENTRAL", "TOPANGA"] [⟨"TOPANGA", 2023, some "ARSON"⟩]).table
          = rankedTable ([⟨"TOPANGA", 2023, some "ARSON"⟩].filter (fun r => r.area == "CENTRAL"))) :=
  ⟨rfl, c6_amended ["CENTRAL", "TOPANGA"] [⟨"TOPANGA", 2023, some "ARSON"⟩] "CENTRAL" rfl⟩

/-- C9 counterexample: a record whose division name "77TH STREET" is not in
the canonical set {CENTRAL}.  The claim says the per-division summary
mapping carries an entry keyed by that name; the left merge keeps only
canonical keys, so there is no such entry (it does survive in the division
dropdown). -/
theorem c9_counterexample :
    ((year_map_data ["CENTRAL"] [⟨"77TH STREET", 2023, some "ROBBERY"⟩] .all).filter
        (fun p => p.1 == "77TH STREET")) = []
    ∧ lookupSummary (year_map_data ["CENTRAL"] [⟨"77TH STREET", 2023, some "ROBBERY"⟩] .all)
        "77TH STREET" = none
    ∧ "77TH STREET" ∈ division_options [⟨"77TH STREET", 2023, some "ROBBERY"⟩] := by
  refine ⟨?_, ?_, ?_⟩ <;> decide

/-- C9 amended: a cleaned record with a non-canonical division name is
retained on the ranking side — its name becomes a division-dropdown entry
and its description appears with positive count in the ranking of that entry —
but it is absent from every per-division summary frame (the canonical left
merge keeps only boundary names), so the map aggregation silently drops it
rather than carrying it under its own key. -/
theorem c9_amended (divs : List String) (recs : List Record) (r : Record)
    (hr : r ∈ recs) (hna : r.area ∉ divs) (b : YearBucket) :
    r.area ∈ division_options recs
    ∧ (∀ p ∈ year_map_data divs recs b, p.1 ≠ r.area)
    ∧ (∀ k, r.desc = some k →
        ∃ n, 0 < n ∧ (k, n) ∈ rankingOf (recs.filter (fun x => x.area == r.area))) := by
  refine ⟨mem_division_options recs r hr, ?_, ?_⟩
  · intro p hp
    rcases List.mem_map.mp hp with ⟨x, hx, rfl⟩
    intro hcon
    exact hna (hcon ▸ hx)
  · intro k hk
    have hrD : r ∈ recs.filter (fun x => x.area == r.area) :=
      List.mem_filter.mpr ⟨hr, by simp⟩
    have hkk : k ∈ sortedKeys (recs.filter (fun x => x.area == r.area)) :=
      mem_sortedKeys _ r k hrD hk
    refine ⟨((recs.filter (fun x => x.area == r.area)).filter (fun x => x.desc == some k)).length,
      ?_, ?_⟩
    · exact List.length_pos_of_mem (List.mem_filter.mpr ⟨hrD, by simp [hk]⟩)
    · exact mem_rankingOf _ _ (List.mem_map.mpr ⟨k, hkk, rfl⟩)

/-- Witness for the amended C9 at a concrete record with the non-canonical
division name. -/
theorem c9_amended_witness :
    (⟨"77TH STREET", 2023, some "ROBBERY"⟩ ∈ ([⟨"77TH STREET", 2023, some "ROBBERY"⟩] : List Record))
    ∧ "77TH STREET" ∉ ["CENTRAL"]
    ∧ "77TH STREET" ∈ division_options [⟨"77TH STREET", 2023, some "ROBBERY"⟩]
    ∧ ("CENTRAL",
        summaryFor (bucketFilter [⟨"77TH STREET", 2023, some "ROBBERY"⟩] .all) "CENTRAL").1
      ≠ "77TH STREET" := by
  have h := c9_amended ["CENTRAL"] [⟨"77TH STREET", 2023, some "ROBBERY"⟩]
    ⟨"77TH STREET", 2023, some "ROBBERY"⟩ (by decide) (by decide) .all
  refine ⟨by decide, by decide, h.1, h.2.1 _ ?_⟩
  unfold year_map_data
  exact List.mem_singleton.mpr rfl

/-- Rows of an insertion result are the inserted row or old rows. -/
lemma mem_insertAsc (l : List (String × Nat)) (x z : String × Nat)
    (hz : z ∈ insertAsc x l) : z = x ∨ z ∈ l := by
  induction l with
  | nil =>
    exact Or.inl (List.mem_singleton.mp hz)
  | cons y t ih =>
    unfold insertAsc at hz
    by_cases h : x.2 < y.2
    · rw [if_pos h] at hz
      rcases List.mem_cons.mp hz with rfl | hmem
      · exact Or.inl rfl
      · exact Or.inr hmem
    · rw [if_neg h] at hz
      rcases List.mem_cons.mp hz with rfl | hmem
      · exact Or.inr (List.mem_cons_self _ _)
      · rcases ih hmem with rfl | hmem2
        · exact Or.inl rfl
        · exact Or.inr (List.mem_cons_of_mem _ hmem2)

/-- Count-insertion preserves ascending sortedness by count. -/
lemma pairwise_insertAsc (l : List (String × Nat)) (x : String × Nat)
    (hs : l.Pairwise (fun p q => p.2 ≤ q.2)) :
    (insertAsc x l).Pairwise (fun p q => p.2 ≤ q.2) := by
  induction l with
  | nil => simp [insertAsc]
  | cons y t ih =>
    have hy : ∀ z ∈ t, y.2 ≤ z.2 := (List.pairwise_cons.mp hs).1
    have ht : t.Pairwise (fun p q => p.2 ≤ q.2) := (List.pairwise_cons.mp hs).2
    unfold insertAsc
    by_cases h : x.2 < y.2
    · rw [if_pos h]
      refine List.pairwise_cons.mpr ⟨?_, hs⟩
      intro z hz
      rcases List.mem_cons.mp hz with rfl | hmem
      · exact Nat.le_of_lt h
      · exact Nat.le_trans (Nat.le_of_lt h) (hy z hmem)
    · rw [if_neg h]
      refine List.pairwise_cons.mpr ⟨?_, ih ht⟩
      intro z hz
      rcases mem_insertAsc t x z hz with rfl | hmem
      · exact Nat.le_of_not_lt h
      · exact hy z hmem

/-- The ascending-sort fold preserves sortedness of the accumulator. -/
lemma pairwise_argsort_fold (l : List (String × Nat)) :
    ∀ acc : List (String × Nat), acc.Pairwise (fun p q => p.2 ≤ q.2) →
      (l.foldl (fun acc x => insertAsc x acc) acc).Pairwise (fun p q => p.2 ≤ q.2) := by
  induction l with
  | nil => intro acc hs; exact hs
  | cons x t ih =>
    intro acc hs
    exact ih (insertAsc x acc) (pairwise_insertAsc acc x hs)

/-- A list is a sublist of any of its single-row insertions. -/
lemma sublist_insertAsc_super (l : List (String × Nat)) (x : String × Nat) :
    List.Sublist l (insertAsc x l) := by
  induction l with
  | nil => exact List.nil_sublist _
  | cons y t ih =>
    unfold insertAsc
    by_cases h : x.2 < y.2
    · rw [if_pos h]
      exact List.Sublist.cons x (List.Sublist.refl _)
    · rw [if_neg h]
      exact List.Sublist.cons₂ y ih

/-- Inserting a row whose count equals that of a row already present puts
it strictly after that row (the insertion walks past equal counts). -/
lemma sublist_pair_insertAsc (l : List (String × Nat)) (a b : String × Nat)
    (hs : l.Pairwise (fun p q => p.2 ≤ q.2)) (ha : a ∈ l) (hab : a.2 = b.2) :
    List.Sublist [a, b] (insertAsc b l) := by
  induction l with
  | nil => cases ha
  | cons y t ih =>
    have hy : ∀ z ∈ t, y.2 ≤ z.2 := (List.pairwise_cons.mp hs).1
    have ht : t.Pairwise (fun p q => p.2 ≤ q.2) := (List.pairwise_cons.mp hs).2
    unfold insertAsc
    by_cases h : b.2 < y.2
    · exfalso
      rcases List.mem_cons.mp ha with rfl | hmem
      · omega
      · have := hy a hmem
        omega
    · rw [if_neg h]
      rcases List.mem_cons.mp ha with rfl | hmem
      · exact List.Sublist.cons₂ a
          (List.singleton_sublist.mpr (mem_insertAsc_self t b))
      · exact List.Sublist.cons y (ih ht hmem)

/-- Core stability property of the fold: an equal-count pair already
ordered in the accumulator or in the remaining input keeps that order in
the result of the fold. -/
lemma stable_fold (l : List (String × Nat)) :
    ∀ acc : List (String × Nat), acc.Pairwise (fun p q => p.2 ≤ q.2) →
      ∀ a b : String × Nat, a.2 = b.2 →
        (List.Sublist [a, b] acc ∨ (a ∈ acc ∧ b ∈ l) ∨ List.Sublist [a, b] l) →
        List.Sublist [a, b] (l.foldl (fun acc x => insertAsc x acc) acc) := by
  induction l with
  | nil =>
    intro acc hs a b hab hd
    rcases hd with h | ⟨_, hb⟩ | h
    · exact h
    · cases hb
    · exact absurd h.length_le (by simp)
  | cons x t ih =>
    intro acc hs a b hab hd
    show List.Sublist [a, b] (t.foldl (fun acc x => insertAsc x acc) (insertAsc x acc))
    refine ih (insertAsc x acc) (pairwise_insertAsc acc x hs) a b hab ?_
    rcases hd with h | ⟨haacc, hbxt⟩ | h
    · exact Or.inl (h.trans (sublist_insertAsc_super acc x))
    · rcases List.mem_cons.mp hbxt with rfl | hbt
      · exact Or.inl (sublist_pair_insertAsc acc a b hs haacc hab)
      · exact Or.inr (Or.inl ⟨mem_insertAsc_of_mem acc x a haacc, hbt⟩)
    · cases h with
      | cons _ h2 =>
        exact Or.inr (Or.inr h2)
      | cons₂ _ h2 =>
        exact Or.inr (Or.inl ⟨mem_insertAsc_self acc x, List.singleton_sublist.mp h2⟩)

/-- C5 counterexample: two distinct crime descriptions with tied counts.
The source grouping lists them in ascending key order (ARSON first); the
claim says the ranking keeps that first-encountered order on ties, but the
descending sort is the reverse of the ascending one, so the ranking lists
BURGLARY first. -/
theorem c5_counterexample :
    groupbySize [⟨"CENTRAL", 2023, some "BURGLARY"⟩, ⟨"CENTRAL", 2023, some "ARSON"⟩]
      = [("ARSON", 1), ("BURGLARY", 1)]
    ∧ rankingOf [⟨"CENTRAL", 2023, some "BURGLARY"⟩, ⟨"CENTRAL", 2023, some "ARSON"⟩]
      = [("BURGLARY", 1), ("ARSON", 1)]
    ∧ rankingOf [⟨"CENTRAL", 2023, some "BURGLARY"⟩, ⟨"CENTRAL", 2023, some "ARSON"⟩]
      ≠ [("ARSON", 1), ("BURGLARY", 1)] := by
  refine ⟨?_, ?_, ?_⟩ <;> decide

/-- C5 amended: every ranking is sorted by count descending and is a
deterministic function of the grouping (re-running on a fixed record set
yields the identical ordering), but equal-count rows are NOT kept in
first-encountered grouping order: the descending sort reverses an
ascending argsort whose default algorithm is unstable, and in the regime
where that algorithm is its stable insertion sort — groupings below the
numpy small-array cutoff, as in the counterexample — tied rows come out
in exactly the REVERSE of their grouping order. -/
theorem c5_ranking (recs : List Record) :
    (rankingOf recs).Pairwise (fun p q => q.2 ≤ p.2)
    ∧ rankingOf recs = sort_values_desc (groupbySize recs)
    ∧ ((groupbySize recs).length ≤ 15 →
        ∀ a b : String × Nat, List.Sublist [a, b] (groupbySize recs) → a.2 = b.2 →
          List.Sublist [b, a] (rankingOf recs)) := by
  refine ⟨?_, rfl, ?_⟩
  · unfold rankingOf sort_values_desc
    refine List.pairwise_reverse.mpr ?_
    exact pairwise_argsort_fold (groupbySize recs) [] List.Pairwise.nil
  · intro _hlen a b hsub hab
    have h1 : List.Sublist [a, b] (argsortAsc (groupbySize recs)) :=
      stable_fold (groupbySize recs) [] List.Pairwise.nil a b hab (Or.inr (Or.inr hsub))
    have h2 := h1.reverse
    simpa [rankingOf, sort_values_desc] using h2

/-- Witness for the amended C5: the counterexample grouping has 2 rows
(inside the stable small-array regime) and its tied pair
(ARSON, BURGLARY) appears reversed in the ranking. -/
theorem c5_ranking_witness :
    (groupbySize [⟨"CENTRAL", 2023, some "BURGLARY"⟩, ⟨"CENTRAL", 2023, some "ARSON"⟩]).length ≤ 15
    ∧ List.Sublist [(("ARSON" : String), 1), (("BURGLARY" : String), 1)]
      (groupbySize [⟨"CENTRAL", 2023, some "BURGLARY"⟩, ⟨"CENTRAL", 2023, some "ARSON"⟩])
    ∧ List.Sublist [(("BURGLARY" : String), 1), (("ARSON" : String), 1)]
      (rankingOf [⟨"CENTRAL", 2023, some "BURGLARY"⟩, ⟨"CENTRAL", 2023, some "ARSON"⟩]) :=
  ⟨by decide, by decide,
    (c5_ranking [⟨"CENTRAL", 2023, some "BURGLARY"⟩, ⟨"CENTRAL", 2023, some "ARSON"⟩]).2.2
      (by decide) ("ARSON", 1) ("BURGLARY", 1) (by decide) rfl⟩
